import Mathlib

/-!
Verification of the schema (proto) import-resolution core of a build-file
generator. The development shallowly embeds internal/language/proto/resolve.go
together with the small parts of its collaborators that the resolver touches:
slash-separated path helpers, the label type with relativization, the sealed
rule index query, and the per-directory default rule name. Collaborator code
that is not part of the examined sources is modelled from the specification
and marked as such in its doc comment.
-/

namespace Gazelle

/-- A build target label: repository, slash-separated package path, target
name. Embeds label.Label; an empty repository denotes the current workspace. -/
structure Label where
  repo : String
  pkg : String
  name : String
deriving DecidableEq

/-- Embeds label.NoLabel, the zero label returned alongside errors. -/
def Label.noLabel : Label := ⟨"", "", ""⟩

/-- Embeds strings.HasSuffix from the Go standard library: suffix test on the
character sequence. -/
def strHasSuffix (s suf : String) : Bool := suf.data.isSuffixOf s.data

/-- Embeds strings.HasPrefix from the Go standard library. -/
def strHasPfx (s pre : String) : Bool := pre.data.isPrefixOf s.data

/-- Embeds strings.TrimPrefix from the Go standard library: drops the leading
occurrence of pre, returning s unchanged when s does not start with pre. -/
def strTrimPfx (s pre : String) : String :=
  if pre.data.isPrefixOf s.data then ⟨s.data.drop pre.data.length⟩ else s

/-- Embeds path.Base from the Go standard library: the last element of the
slash-separated path, after stripping trailing slashes; "." for the empty
path, "/" for a path made only of slashes. -/
def pathBase (p : String) : String :=
  if p.data = [] then "."
  else
    let l := (p.data.reverse.dropWhile (· == '/')).reverse
    let e := (l.reverse.takeWhile (fun c => ! (c == '/'))).reverse
    if e = [] then "/" else ⟨e⟩

/-- Embeds path.Dir from the Go standard library for the slash-normalized
relative paths handled by this resolver: everything before the final slash
with trailing slashes removed, and "." when no directory portion remains.
(Go additionally runs path.Clean, which on the already-clean relative import
paths reaching this code is the identity on that directory portion.) -/
def pathDir (p : String) : String :=
  let pre := (p.data.reverse.dropWhile (fun c => ! (c == '/'))).reverse
  let d := (pre.reverse.dropWhile (· == '/')).reverse
  if d = [] then "." else ⟨d⟩

/-- Modelled from the spec: the path-aware prefix test of the repository
(pathtools.HasPrefix, whose package is not among the examined sources). It
respects component boundaries of slash-separated paths, and the empty prefix
is a prefix of every path. -/
def pathHasPfx (p pfx : String) : Bool :=
  decide (pfx = "") || decide (p = pfx) || strHasPfx p (pfx ++ "/")

/-- Modelled from the spec: the path-aware prefix removal of the repository
(pathtools.TrimPrefix, whose package is not among the examined sources),
companion of pathHasPfx. -/
def pathTrimPfx (p pfx : String) : String :=
  if pfx = "" then p
  else if p = pfx then ""
  else strTrimPfx p (pfx ++ "/")

/-- Modelled from the spec: the fixed repository holding the well-known
standard schemas (config.WellKnownTypesProtoRepo, defined outside the
examined sources). The claims depend only on it being one fixed name. -/
def WellKnownTypesProtoRepo : String := "com_google_protobuf"

/-- Modelled from the spec: the fixed path under which the standard library
schemas distributed with the schema compiler live
(config.WellKnownTypesProtoPrefix, defined outside the examined sources). -/
def WellKnownTypesProtoPfx : String := "google/protobuf"

/-- An import specification: a language tag paired with an import string.
Embeds resolve.ImportSpec. -/
structure ImportSpec where
  lang : String
  imp : String
deriving DecidableEq

/-- One provider entry of the sealed rule index: the provided import
specification, the language of the providing rule (used by the kind filter
of index queries), and the providing rule label. -/
structure IndexEntry where
  spec : ImportSpec
  lang : String
  lbl : Label
deriving DecidableEq

/-- The sealed, read-only rule index, reduced to the provider entries that
index queries consult. -/
structure RuleIndex where
  entries : List IndexEntry
deriving DecidableEq

/-- Modelled from the spec: the sealed-index query FindRulesByImport of the
resolve package (not among the examined sources): all rule labels providing
the given import specification, restricted to rules of the given language. -/
def RuleIndex.findRulesByImport (ix : RuleIndex) (spec : ImportSpec)
    (langFilter : String) : List Label :=
  (ix.entries.filter
    (fun e => decide (e.spec = spec) && decide (e.lang = langFilter))).map
    (fun e => e.lbl)

/-- The error outcomes of the schema resolver: the skip sentinel
(skipImportError), the index miss sentinel (notFoundError), the ambiguity
diagnostic built from the first two matches, and the malformed-import
diagnostic for strings without the schema file extension. -/
inductive ResolveErr where
  | skipImport : ResolveErr
  | notFound : ResolveErr
  | multiple : Label → Label → String → ResolveErr
  | nonProto : String → ResolveErr
deriving DecidableEq

instance {ε α : Type} [DecidableEq ε] [DecidableEq α] :
    DecidableEq (Except ε α) := fun x y =>
  match x, y with
  | .ok a, .ok b =>
    if h : a = b then isTrue (by rw [h]) else isFalse (by simp [h])
  | .error a, .error b =>
    if h : a = b then isTrue (by rw [h]) else isFalse (by simp [h])
  | .ok _, .error _ => isFalse (by simp)
  | .error _, .ok _ => isFalse (by simp)

/-- Embeds isWellKnownProto: the import lies under the well-known path and
what remains after removing that path is exactly the import file base name. -/
def isWellKnownProto (imp : String) : Bool :=
  pathHasPfx imp WellKnownTypesProtoPfx &&
    decide (pathTrimPfx imp WellKnownTypesProtoPfx = pathBase imp)

/-- Modelled from the spec: RuleName, the conventional per-directory default
target name for a directory (defined by the generation code of the package,
not among the examined sources): derived from the last path component of the
directory, with a fixed root name for the repository root, carrying the
schema rule marker. The source calls it as RuleName of the directory. -/
def RuleName (rel : String) : String :=
  (if rel = "" then "root" else pathBase rel) ++ "_proto"

/-- Embeds resolveWithIndex: an index query for the proto import, reporting
the miss sentinel on zero matches, the ambiguity diagnostic on more than one
match, the skip sentinel when the unique match is the resolving rule, and
the unique match otherwise. -/
def resolveWithIndex (ix : RuleIndex) (imp : String) (from_ : Label) :
    Except ResolveErr Label :=
  match ix.findRulesByImport ⟨"proto", imp⟩ "proto" with
  | [] => .error .notFound
  | [m] => if from_ = m then .error .skipImport else .ok m
  | m0 :: m1 :: _ => .error (.multiple m0 m1 imp)

/-- Embeds resolveProto: reject imports without the schema extension, map
well-known imports to the fixed external label, otherwise consult the index,
and on an index miss fall back to the same-directory default label. -/
def resolveProto (ix : RuleIndex) (imp : String) (from_ : Label) :
    Except ResolveErr Label :=
  if ! strHasSuffix imp ".proto" then .error (.nonProto imp)
  else if isWellKnownProto imp then
    .ok ⟨WellKnownTypesProtoRepo, "",
      pathBase ⟨imp.data.take (imp.data.length - ".proto".data.length)⟩
        ++ "_proto"⟩
  else
    match resolveWithIndex ix imp from_ with
    | .ok l => .ok l
    | .error .skipImport => .error .skipImport
    | .error .notFound =>
      let rel := pathDir imp
      let rel := if rel = "." then "" else rel
      .ok ⟨"", rel, RuleName rel⟩
    | .error e => .error e

/-- Modelled from the spec: relativization composed with printing of the
label package (label.Rel and label.String, not among the examined sources):
the shortest valid reference given the consuming repository and package. -/
def Label.relString (l : Label) (fromRepo fromPkg : String) : String :=
  if l.repo = fromRepo ∧ l.pkg = fromPkg then ":" ++ l.name
  else if l.repo = fromRepo then "//" ++ l.pkg ++ ":" ++ l.name
  else "@" ++ l.repo ++ "//" ++ l.pkg ++ ":" ++ l.name

/-- A rule as the resolver sees it: the private raw-imports attribute (absent
when never set), the dependency attribute (absent when never set or deleted),
and the remaining attributes, untouched by resolution. -/
structure Rule where
  importsRaw : Option (List String)
  deps : Option (List String)
  attrs : List (String × String)
deriving DecidableEq

/-- The loop body of Resolve over the raw import strings: skip-sentinel
entries contribute nothing, other errors are collected as diagnostics (the
source prints them with the logger), and resolved labels are relativized
against the consuming rule and printed into the dependency list, in input
order. -/
def resolveImports (ix : RuleIndex) (from_ : Label) :
    List String → List String × List ResolveErr
  | [] => ([], [])
  | imp :: rest =>
    let r := resolveImports ix from_ rest
    match resolveProto ix imp from_ with
    | .error .skipImport => r
    | .error e => (r.1, e :: r.2)
    | .ok l => (l.relString from_.repo from_.pkg :: r.1, r.2)

/-- The labels successfully resolved from a raw import list, in input order
(the imports whose resolution returns a label rather than an error). -/
def resolveOks (ix : RuleIndex) (from_ : Label) (imps : List String) :
    List Label :=
  imps.filterMap (fun imp =>
    match resolveProto ix imp from_ with
    | .ok l => some l
    | .error _ => none)

/-- Embeds Resolve of the schema resolver: return immediately when the
raw-imports attribute was never set; otherwise delete the dependency attribute,
resolve every raw import, and set the dependency attribute only when at
least one dependency was produced. The second component collects the
diagnostics printed by the source. -/
def Resolve (ix : RuleIndex) (r : Rule) (from_ : Label) :
    Rule × List ResolveErr :=
  match r.importsRaw with
  | none => (r, [])
  | some imports =>
    let res := resolveImports ix from_ imports
    ({ r with deps := if res.1.length > 0 then some res.1 else none }, res.2)

/-- Splits a character sequence at every slash; the embedding of the
component view of slash-separated package paths. -/
def splitSlash : List Char → List (List Char)
  | [] => [[]]
  | c :: t =>
    match splitSlash t with
    | [] => [[]]
    | s :: rest => if c = '/' then [] :: s :: rest else (c :: s) :: rest

/-- Joins path components with slashes; inverse of splitSlash on component
lists free of slashes. -/
def joinSlash : List String → String
  | [] => ""
  | [s] => s
  | s :: rest => s ++ "/" ++ joinSlash rest

/-- Modelled from the spec: the components before the deepest vendor
component of a package path, when the package lies inside a vendor
directory (part of the generic-module resolver, not among the examined
sources): the vendor directory shadows external dependencies for everything
beneath its parent. -/
def vendorParentParts : List String → Option (List String)
  | [] => none
  | p :: rest =>
    match vendorParentParts rest with
    | some tail => some (p :: tail)
    | none => if p = "vendor" then some [] else none

/-- Modelled from the spec: the parent directory of the nearest enclosing
vendor directory of a package path, or nothing for a package outside every
vendor directory. -/
def vendorParent (pkg : String) : Option String :=
  (vendorParentParts ((splitSlash pkg.data).map (fun cs => (⟨cs⟩ : String)))).map
    joinSlash

/-- Modelled from the spec: the precedence weight of a candidate under the
vendoring convention; a vendored candidate always outweighs a non-vendored
one, and a deeper vendor parent outweighs a shallower one. -/
def vendorDepth (l : Label) : Nat :=
  match vendorParent l.pkg with
  | none => 0
  | some vp => vp.length + 1

/-- Outcome of the vendoring tie-break of the generic-module resolver. -/
inductive VendorChoice where
  | noneVisible : VendorChoice
  | chosen : Label → VendorChoice
  | ambiguous : VendorChoice
deriving DecidableEq

/-- Modelled from the spec: the index-lookup narrowing of the generic-module
resolver under the vendoring convention (its language package is not among
the examined sources). A vendored candidate is visible only beneath its
vendor parent; among visible candidates the one with the deepest vendor
parent wins, a vendored candidate winning over every non-vendored one; a
remaining tie is an ambiguity. -/
def selectVendored (rel : String) (cands : List Label) : VendorChoice :=
  let visible := cands.filter (fun c =>
    match vendorParent c.pkg with
    | none => true
    | some vp => pathHasPfx rel vp)
  let best := visible.foldl (fun m c => max m (vendorDepth c)) 0
  match visible.filter (fun c => vendorDepth c == best) with
  | [] => .noneVisible
  | [w] => .chosen w
  | _ => .ambiguous

theorem resolveImports_cons_ok {ix : RuleIndex} {from_ : Label} {imp : String}
    {l : Label} (rest : List String) (h : resolveProto ix imp from_ = .ok l) :
    resolveImports ix from_ (imp :: rest) =
      (l.relString from_.repo from_.pkg :: (resolveImports ix from_ rest).1,
       (resolveImports ix from_ rest).2) := by
  simp [resolveImports, h]

theorem resolveImports_cons_skip {ix : RuleIndex} {from_ : Label}
    {imp : String} (rest : List String)
    (h : resolveProto ix imp from_ = .error .skipImport) :
    resolveImports ix from_ (imp :: rest) = resolveImports ix from_ rest := by
  simp [resolveImports, h]

theorem resolveImports_cons_err {ix : RuleIndex} {from_ : Label}
    {imp : String} {e : ResolveErr} (rest : List String)
    (h : resolveProto ix imp from_ = .error e)
    (hne : e ≠ ResolveErr.skipImport) :
    resolveImports ix from_ (imp :: rest) =
      ((resolveImports ix from_ rest).1,
       e :: (resolveImports ix from_ rest).2) := by
  cases e with
  | skipImport => exact absurd rfl hne
  | notFound => simp [resolveImports, h]
  | multiple a b s => simp [resolveImports, h]
  | nonProto s => simp [resolveImports, h]

theorem resolveImports_append (ix : RuleIndex) (from_ : Label)
    (xs ys : List String) :
    resolveImports ix from_ (xs ++ ys) =
      ((resolveImports ix from_ xs).1 ++ (resolveImports ix from_ ys).1,
       (resolveImports ix from_ xs).2 ++ (resolveImports ix from_ ys).2) := by
  induction xs with
  | nil => simp [resolveImports]
  | cons imp rest ih =>
    rw [List.cons_append]
    cases h : resolveProto ix imp from_ with
    | ok l =>
      rw [resolveImports_cons_ok _ h, resolveImports_cons_ok _ h, ih]
      simp
    | error e =>
      cases e with
      | skipImport =>
        rw [resolveImports_cons_skip _ h, resolveImports_cons_skip _ h, ih]
      | notFound =>
        rw [resolveImports_cons_err _ h (by simp),
          resolveImports_cons_err _ h (by simp), ih]
        simp
      | multiple a b s =>
        rw [resolveImports_cons_err _ h (by simp),
          resolveImports_cons_err _ h (by simp), ih]
        simp
      | nonProto s =>
        rw [resolveImports_cons_err _ h (by simp),
          resolveImports_cons_err _ h (by simp), ih]
        simp

theorem Resolve_eq_of_imports (ix : RuleIndex) (from_ : Label) {r : Rule}
    {imps : List String} (h : r.importsRaw = some imps) :
    Resolve ix r from_ =
      ({ r with deps := if (resolveImports ix from_ imps).1.length > 0
          then some (resolveImports ix from_ imps).1 else none },
       (resolveImports ix from_ imps).2) := by
  simp [Resolve, h]

theorem resolveImports_fst_eq (ix : RuleIndex) (from_ : Label)
    (imps : List String) :
    (resolveImports ix from_ imps).1 =
      (resolveOks ix from_ imps).map
        (fun l => l.relString from_.repo from_.pkg) := by
  induction imps with
  | nil => simp [resolveImports, resolveOks]
  | cons imp rest ih =>
    cases h : resolveProto ix imp from_ with
    | ok l =>
      rw [resolveImports_cons_ok _ h]
      simp [resolveOks, h] at ih ⊢
      exact ih
    | error e =>
      cases e with
      | skipImport =>
        rw [resolveImports_cons_skip _ h]
        simp [resolveOks, h] at ih ⊢
        exact ih
      | notFound =>
        rw [resolveImports_cons_err _ h (by simp)]
        simp [resolveOks, h] at ih ⊢
        exact ih
      | multiple a b s =>
        rw [resolveImports_cons_err _ h (by simp)]
        simp [resolveOks, h] at ih ⊢
        exact ih
      | nonProto s =>
        rw [resolveImports_cons_err _ h (by simp)]
        simp [resolveOks, h] at ih ⊢
        exact ih

theorem resolveImports_err_split {ix : RuleIndex} {from_ : Label}
    {imp : String} {e : ResolveErr} (pre post : List String)
    (h : resolveProto ix imp from_ = .error e)
    (hne : e ≠ ResolveErr.skipImport) :
    (resolveImports ix from_ (pre ++ imp :: post)).1
        = (resolveImports ix from_ (pre ++ post)).1
    ∧ (resolveImports ix from_ (pre ++ imp :: post)).2
        = (resolveImports ix from_ pre).2
            ++ e :: (resolveImports ix from_ post).2
    ∧ (resolveImports ix from_ (pre ++ post)).2
        = (resolveImports ix from_ pre).2 ++ (resolveImports ix from_ post).2 := by
  have h1 := resolveImports_append ix from_ pre (imp :: post)
  have h2 := resolveImports_append ix from_ pre post
  have h3 := resolveImports_cons_err post h hne
  refine ⟨?_, ?_, ?_⟩
  · rw [h1, h2, h3]
  · rw [h1, h3]
  · rw [h2]

theorem resolveImports_skip_split {ix : RuleIndex} {from_ : Label}
    {imp : String} (pre post : List String)
    (h : resolveProto ix imp from_ = .error .skipImport) :
    resolveImports ix from_ (pre ++ imp :: post)
      = resolveImports ix from_ (pre ++ post) := by
  rw [resolveImports_append, resolveImports_append,
    resolveImports_cons_skip post h]

/-- C9: when the raw-imports private attribute was never set, Resolve returns
immediately with the rule entirely unchanged and no diagnostics; in
particular a pre-existing dependency attribute survives, although with a
present raw-imports value the old dependency attribute never influences the
result (it is deleted before resolution). -/
theorem C9_absent_imports_frame (ix : RuleIndex) (from_ : Label) (r : Rule)
    (h : r.importsRaw = none) :
    Resolve ix r from_ = (r, [])
    ∧ ∀ (r' : Rule) (imps : List String), r'.importsRaw = some imps →
        (Resolve ix r' from_).1.deps
          = (Resolve ix { r' with deps := none } from_).1.deps := by
  refine ⟨by simp [Resolve, h], ?_⟩
  intro r' imps h'
  rw [Resolve_eq_of_imports ix from_ h', Resolve_eq_of_imports ix from_ (show ({ r' with deps := none } : Rule).importsRaw = some imps from h')]

/-- C6: resolving a rule twice against an unchanged index with unchanged
raw imports yields the same dependency list, and whenever resolution produces
zero dependencies the dependency attribute is absent afterwards, never
present but empty. -/
theorem C6_idempotent_overwrite (ix : RuleIndex) (from_ : Label) (r : Rule)
    (imps : List String) (h : r.importsRaw = some imps) :
    (Resolve ix (Resolve ix r from_).1 from_).1.deps
        = (Resolve ix r from_).1.deps
    ∧ ((resolveImports ix from_ imps).1 = []
        → (Resolve ix r from_).1.deps = none) := by
  have h1 := Resolve_eq_of_imports ix from_ h
  have h2 : ((Resolve ix r from_).1).importsRaw = some imps := by
    rw [h1]
    exact h
  constructor
  · rw [Resolve_eq_of_imports ix from_ h2, h1]
  · intro hz
    rw [h1]
    simp [hz]

/-- C7: the dependency strings written onto a rule are exactly the resolved
labels relativized against the resolving rule repository and package, and
relativization produces the shortest form: same repository and package gives
a colon-name reference, same repository gives a package-qualified reference,
and a different repository gives a fully qualified external reference. -/
theorem C7_relativized_deps (ix : RuleIndex) (from_ : Label) (r : Rule)
    (imps : List String) (h : r.importsRaw = some imps) :
    ((Resolve ix r from_).1.deps =
        if resolveOks ix from_ imps = [] then none
        else some ((resolveOks ix from_ imps).map
          (fun l => l.relString from_.repo from_.pkg)))
    ∧ (∀ (l : Label) (fr fp : String),
        (l.repo = fr → l.pkg = fp → l.relString fr fp = ":" ++ l.name)
        ∧ (l.repo = fr → ¬ l.pkg = fp →
            l.relString fr fp = "//" ++ l.pkg ++ ":" ++ l.name)
        ∧ (¬ l.repo = fr →
            l.relString fr fp
              = "@" ++ l.repo ++ "//" ++ l.pkg ++ ":" ++ l.name)) := by
  constructor
  · rw [Resolve_eq_of_imports ix from_ h]
    show (if (resolveImports ix from_ imps).1.length > 0
        then some (resolveImports ix from_ imps).1 else none) = _
    rw [resolveImports_fst_eq]
    cases hoks : resolveOks ix from_ imps with
    | nil => simp
    | cons a t => simp
  · intro l fr fp
    refine ⟨fun h1 h2 => ?_, fun h1 h2 => ?_, fun h1 => ?_⟩
    · simp [Label.relString, h1, h2]
    · simp [Label.relString, h1, h2]
    · simp [Label.relString, h1]

/-- C5: an import with the schema extension that is not well-known and has no
provider in the index falls back to the same-directory label: package equal
to the directory portion of the import path, empty for the root directory,
named with the conventional per-directory default target name. -/
theorem C5_same_directory_fallback (ix : RuleIndex) (from_ : Label)
    (imp : String)
    (hs : strHasSuffix imp ".proto" = true)
    (hw : isWellKnownProto imp = false)
    (hz : ix.findRulesByImport ⟨"proto", imp⟩ "proto" = []) :
    resolveProto ix imp from_ =
      .ok ⟨"", (if pathDir imp = "." then "" else pathDir imp),
        RuleName (if pathDir imp = "." then "" else pathDir imp)⟩ := by
  simp [resolveProto, hs, hw, resolveWithIndex, hz]

/-- C3: a well-known schema import resolves, for every index content
including the empty index, to the fixed external label in the well-known
types repository whose target name is the file base name with the extension
stripped and the schema marker appended; the index is never consulted. -/
theorem C3_wellknown_fixed_label (imp : String) (from_ : Label)
    (hs : strHasSuffix imp ".proto" = true)
    (hw : isWellKnownProto imp = true) :
    ∀ ix : RuleIndex, resolveProto ix imp from_ =
      .ok ⟨WellKnownTypesProtoRepo, "",
        pathBase ⟨imp.data.take (imp.data.length - ".proto".data.length)⟩
          ++ "_proto"⟩ := by
  intro ix
  simp [resolveProto, hs, hw]

/-- C4: an import string without the schema file extension is rejected with
the malformed-import error, the caller-contract diagnostic, and is resolved
to no label: it contributes nothing to the dependency list while the
other entries resolve as if it were absent. -/
theorem C4_nonproto_rejected (ix : RuleIndex) (from_ : Label) (r : Rule)
    (pre post : List String) (imp : String)
    (h : strHasSuffix imp ".proto" = false)
    (himp : r.importsRaw = some (pre ++ imp :: post)) :
    resolveProto ix imp from_ = .error (.nonProto imp)
    ∧ (Resolve ix r from_).1.deps
        = (Resolve ix { r with importsRaw := some (pre ++ post) } from_).1.deps
    ∧ (Resolve ix r from_).2
        = (resolveImports ix from_ pre).2
            ++ ResolveErr.nonProto imp :: (resolveImports ix from_ post).2
    ∧ (Resolve ix { r with importsRaw := some (pre ++ post) } from_).2
        = (resolveImports ix from_ pre).2 ++ (resolveImports ix from_ post).2 := by
  have hp : resolveProto ix imp from_ = .error (.nonProto imp) := by
    simp [resolveProto, h]
  obtain ⟨e1, e2, e3⟩ := resolveImports_err_split pre post hp (by simp)
  have hr := Resolve_eq_of_imports ix from_ himp
  have hr' := Resolve_eq_of_imports ix from_
    (show ({ r with importsRaw := some (pre ++ post) } : Rule).importsRaw
      = some (pre ++ post) from rfl)
  refine ⟨hp, ?_, ?_, ?_⟩
  · rw [hr, hr', e1]
  · rw [hr, e2]
  · rw [hr', e3]

/-- C1 counterexample: an import specification with two providers in the
index, resolved for a consumer that is neither provider, for which the code
nevertheless writes a dependency edge and reports no diagnostic, because
the entry is recognized as well-known and the index is bypassed. -/
theorem C1_counterexample :
    (RuleIndex.findRulesByImport
        ⟨[⟨⟨"proto", "google/protobuf/any.proto"⟩, "proto", ⟨"", "a", "x"⟩⟩,
          ⟨⟨"proto", "google/protobuf/any.proto"⟩, "proto", ⟨"", "b", "y"⟩⟩]⟩
        ⟨"proto", "google/protobuf/any.proto"⟩ "proto").length = 2
    ∧ (⟨"", "c", "bin"⟩ : Label) ∉ RuleIndex.findRulesByImport
        ⟨[⟨⟨"proto", "google/protobuf/any.proto"⟩, "proto", ⟨"", "a", "x"⟩⟩,
          ⟨⟨"proto", "google/protobuf/any.proto"⟩, "proto", ⟨"", "b", "y"⟩⟩]⟩
        ⟨"proto", "google/protobuf/any.proto"⟩ "proto"
    ∧ Resolve
        ⟨[⟨⟨"proto", "google/protobuf/any.proto"⟩, "proto", ⟨"", "a", "x"⟩⟩,
          ⟨⟨"proto", "google/protobuf/any.proto"⟩, "proto", ⟨"", "b", "y"⟩⟩]⟩
        ⟨some ["google/protobuf/any.proto"], none, []⟩ ⟨"", "c", "bin"⟩
      = (⟨some ["google/protobuf/any.proto"],
           some ["@com_google_protobuf//:any_proto"], []⟩, []) := by
  exact ⟨by decide, by decide, by decide⟩

/-- C1 amended: for an import specification that is not recognized as
well-known and has more than one provider in the index, resolving it for a
consumer that is none of the providers adds no dependency edge for that
entry, reports a diagnostic, and leaves the resolution of the other
entries unchanged. -/
theorem C1_ambiguity_no_edge (ix : RuleIndex) (from_ : Label) (r : Rule)
    (pre post : List String) (imp : String)
    (hw : isWellKnownProto imp = false)
    (hm : 2 ≤ (ix.findRulesByImport ⟨"proto", imp⟩ "proto").length)
    (hfrom : from_ ∉ ix.findRulesByImport ⟨"proto", imp⟩ "proto")
    (himp : r.importsRaw = some (pre ++ imp :: post)) :
    (Resolve ix r from_).1.deps
      = (Resolve ix { r with importsRaw := some (pre ++ post) } from_).1.deps
    ∧ ∃ e : ResolveErr,
        (Resolve ix r from_).2
          = (resolveImports ix from_ pre).2
              ++ e :: (resolveImports ix from_ post).2
        ∧ (Resolve ix { r with importsRaw := some (pre ++ post) } from_).2
          = (resolveImports ix from_ pre).2
              ++ (resolveImports ix from_ post).2 := by
  have herr : ∃ e : ResolveErr, e ≠ ResolveErr.skipImport
      ∧ resolveProto ix imp from_ = .error e := by
    cases hsuf : strHasSuffix imp ".proto" with
    | false =>
      exact ⟨.nonProto imp, by simp, by simp [resolveProto, hsuf]⟩
    | true =>
      obtain ⟨a, b, t, hme⟩ :
          ∃ a b t, ix.findRulesByImport ⟨"proto", imp⟩ "proto" = a :: b :: t := by
        cases hl : ix.findRulesByImport ⟨"proto", imp⟩ "proto" with
        | nil => rw [hl] at hm; simp at hm
        | cons a rest =>
          cases rest with
          | nil => rw [hl] at hm; simp at hm
          | cons b t => exact ⟨a, b, t, rfl⟩
      exact ⟨.multiple a b imp, by simp,
        by simp [resolveProto, hsuf, hw, resolveWithIndex, hme]⟩
  obtain ⟨e, hne, hp⟩ := herr
  obtain ⟨e1, e2, e3⟩ := resolveImports_err_split pre post hp hne
  have hr := Resolve_eq_of_imports ix from_ himp
  have hr' := Resolve_eq_of_imports ix from_
    (show ({ r with importsRaw := some (pre ++ post) } : Rule).importsRaw
      = some (pre ++ post) from rfl)
  refine ⟨?_, e, ?_, ?_⟩
  · rw [hr, hr', e1]
  · rw [hr, e2]
  · rw [hr', e3]

/-- C2 counterexample: an import specification whose sole index provider is
the resolving rule itself, for which the code nevertheless writes a
dependency edge, because the import is recognized as well-known and the
index is bypassed before the self-import check. -/
theorem C2_counterexample :
    RuleIndex.findRulesByImport
        ⟨[⟨⟨"proto", "google/protobuf/any.proto"⟩, "proto", ⟨"", "", "me"⟩⟩]⟩
        ⟨"proto", "google/protobuf/any.proto"⟩ "proto" = [⟨"", "", "me"⟩]
    ∧ (Resolve
        ⟨[⟨⟨"proto", "google/protobuf/any.proto"⟩, "proto", ⟨"", "", "me"⟩⟩]⟩
        ⟨some ["google/protobuf/any.proto"], none, []⟩ ⟨"", "", "me"⟩).1.deps
      = some ["@com_google_protobuf//:any_proto"] := by
  exact ⟨by decide, by decide⟩

/-- C2 amended: for an import with the schema extension, not recognized as
well-known, whose set of index providers is exactly the resolving rule
itself, resolution signals the skip sentinel: no dependency edge is added
and no diagnostic is emitted, the rule resolving exactly as if the import
were absent. -/
theorem C2_self_import_skip (ix : RuleIndex) (from_ : Label) (r : Rule)
    (pre post : List String) (imp : String)
    (hs : strHasSuffix imp ".proto" = true)
    (hw : isWellKnownProto imp = false)
    (hm : ix.findRulesByImport ⟨"proto", imp⟩ "proto" = [from_])
    (himp : r.importsRaw = some (pre ++ imp :: post)) :
    resolveProto ix imp from_ = .error .skipImport
    ∧ (Resolve ix r from_).1.deps
        = (Resolve ix { r with importsRaw := some (pre ++ post) } from_).1.deps
    ∧ (Resolve ix r from_).2
        = (Resolve ix { r with importsRaw := some (pre ++ post) } from_).2 := by
  have hp : resolveProto ix imp from_ = .error .skipImport := by
    simp [resolveProto, hs, hw, resolveWithIndex, hm]
  have hsplit := resolveImports_skip_split pre post hp
  have hr := Resolve_eq_of_imports ix from_ himp
  have hr' := Resolve_eq_of_imports ix from_
    (show ({ r with importsRaw := some (pre ++ post) } : Rule).importsRaw
      = some (pre ++ post) from rfl)
  refine ⟨hp, ?_, ?_⟩
  · rw [hr, hr', hsplit]
  · rw [hr, hr', hsplit]

/-- C8: under the vendoring convention the nearest enclosing vendor
directory wins: with providers at shallow/vendor and shallow/deep/vendor, a
consumer in package shallow/deep resolves to the shallow/deep/vendor
provider; and in general a vendored candidate wins over a non-vendored one
for every consumer its vendor directory encloses. -/
theorem C8_vendor_nearest_wins :
    selectVendored "shallow/deep"
        [⟨"", "shallow/vendor", "shallow"⟩, ⟨"", "shallow/deep/vendor", "deep"⟩]
      = .chosen ⟨"", "shallow/deep/vendor", "deep"⟩
    ∧ ∀ (l1 l2 : Label) (rel vp : String),
        vendorParent l1.pkg = none →
        vendorParent l2.pkg = some vp →
        pathHasPfx rel vp = true →
        selectVendored rel [l1, l2] = .chosen l2 := by
  refine ⟨by decide, ?_⟩
  intro l1 l2 rel vp h1 h2 h3
  simp [selectVendored, vendorDepth, h1, h2, h3]

theorem dropWhile_head_false {q : Char → Bool} :
    ∀ (l : List Char) {c : Char} {t : List Char},
      l.dropWhile q = c :: t → q c = false := by
  intro l
  induction l with
  | nil => intro c t h; simp [List.dropWhile] at h
  | cons a l ih =>
    intro c t h
    rw [List.dropWhile_cons] at h
    by_cases ha : q a = true
    · rw [if_pos ha] at h
      exact ih h
    · rw [if_neg ha] at h
      cases h
      simpa using ha

theorem pathBase_no_slash {p : String} (h : ∃ c ∈ p.data, ¬ c = '/') :
    ∀ c ∈ (pathBase p).data, ¬ c = '/' := by
  obtain ⟨c0, hc0, hc0ne⟩ := h
  have hne : ¬ p.data = [] := by
    intro hn
    rw [hn] at hc0
    exact absurd hc0 (List.not_mem_nil c0)
  intro c hc
  simp only [pathBase, if_neg hne, List.reverse_reverse] at hc
  by_cases hE : (p.data.reverse.dropWhile (· == '/')).takeWhile
      (fun c => ! (c == '/')) = []
  · exfalso
    cases hA : p.data.reverse.dropWhile (· == '/') with
    | nil =>
      rw [List.dropWhile_eq_nil_iff] at hA
      have : (c0 == '/') = true := hA c0 (List.mem_reverse.mpr hc0)
      exact hc0ne (by simpa using this)
    | cons a t =>
      have ha : (a == '/') = false :=
        dropWhile_head_false (q := (· == '/')) _ hA
      rw [hA, List.takeWhile_cons] at hE
      rw [ha] at hE
      simp at hE
  · rw [if_neg (by simpa using hE)] at hc
    have hmem : c ∈ (p.data.reverse.dropWhile (· == '/')).takeWhile
        (fun c => ! (c == '/')) := List.mem_reverse.mp hc
    have := List.mem_takeWhile_imp hmem
    simpa using this

theorem wellknown_imp_eq {imp : String} (h : isWellKnownProto imp = true) :
    imp = WellKnownTypesProtoPfx ++ "/" ++ pathBase imp := by
  rw [isWellKnownProto, Bool.and_eq_true] at h
  obtain ⟨h1, h2⟩ := h
  rw [pathHasPfx, Bool.or_eq_true, Bool.or_eq_true] at h1
  rcases h1 with (h1 | h1) | h1
  · rw [decide_eq_true_eq] at h1
    exact absurd h1 (by decide)
  · rw [decide_eq_true_eq] at h1
    subst h1
    exact absurd h2 (by decide)
  · rw [strHasPfx, List.isPrefixOf_iff_prefix] at h1
    obtain ⟨t, ht⟩ := h1
    have himp_ne : ¬ imp = WellKnownTypesProtoPfx := by
      intro he
      have hlen := congrArg List.length ht
      rw [he] at hlen
      rw [List.length_append] at hlen
      have h16 : ((WellKnownTypesProtoPfx ++ "/") : String).data.length
          = 16 := rfl
      have h15 : (WellKnownTypesProtoPfx : String).data.length = 15 := rfl
      rw [h16, h15] at hlen
      omega
    have htrim : pathTrimPfx imp WellKnownTypesProtoPfx = ⟨t⟩ := by
      rw [pathTrimPfx, if_neg (by decide), if_neg himp_ne, strTrimPfx,
        if_pos (List.isPrefixOf_iff_prefix.mpr ⟨t, ht⟩)]
      rw [← ht, List.drop_left]
    rw [decide_eq_true_eq, htrim] at h2
    apply String.ext
    rw [String.data_append, String.data_append, ← h2, ← ht,
      String.data_append]

theorem eq_imp_wellknown {imp : String}
    (h : imp = WellKnownTypesProtoPfx ++ "/" ++ pathBase imp) :
    isWellKnownProto imp = true := by
  have hdata : imp.data
      = (WellKnownTypesProtoPfx ++ "/").data ++ (pathBase imp).data := by
    conv_lhs => rw [h]
    rw [String.data_append, String.data_append]
  have hpre : strHasPfx imp (WellKnownTypesProtoPfx ++ "/") = true := by
    rw [strHasPfx, List.isPrefixOf_iff_prefix]
    exact ⟨(pathBase imp).data, hdata.symm⟩
  have hne : ¬ imp = WellKnownTypesProtoPfx := by
    intro he
    have hlen := congrArg List.length hdata
    rw [he, List.length_append] at hlen
    have h16 : ((WellKnownTypesProtoPfx ++ "/") : String).data.length
        = 16 := rfl
    have h15 : (WellKnownTypesProtoPfx : String).data.length = 15 := rfl
    rw [h16, h15] at hlen
    omega
  rw [isWellKnownProto, Bool.and_eq_true]
  constructor
  · rw [pathHasPfx, hpre]
    simp
  · rw [decide_eq_true_eq, pathTrimPfx, if_neg (by decide), if_neg hne,
      strTrimPfx, if_pos (List.isPrefixOf_iff_prefix.mpr
        ⟨(pathBase imp).data, hdata.symm⟩)]
    rw [hdata, List.drop_left]

/-- C10: an import is recognized as well-known exactly when it lies directly
under the well-known path, being that path joined with its own base file
name; an import in a deeper subdirectory beneath the path is never
well-known; and every non-well-known schema import is resolved through the
index, with the same-directory fallback on an index miss. -/
theorem C10_wellknown_direct_only :
    (∀ imp : String, isWellKnownProto imp = true ↔
        imp = WellKnownTypesProtoPfx ++ "/" ++ pathBase imp)
    ∧ (∀ rest : String, '/' ∈ rest.data →
        isWellKnownProto (WellKnownTypesProtoPfx ++ "/" ++ rest) = false)
    ∧ (∀ (ix : RuleIndex) (from_ : Label) (imp : String),
        strHasSuffix imp ".proto" = true → isWellKnownProto imp = false →
        (∀ l : Label, resolveWithIndex ix imp from_ = .ok l →
            resolveProto ix imp from_ = .ok l)
        ∧ (resolveWithIndex ix imp from_ = .error .notFound →
            resolveProto ix imp from_ =
              .ok ⟨"", (if pathDir imp = "." then "" else pathDir imp),
                RuleName (if pathDir imp = "." then "" else pathDir imp)⟩)) := by
  refine ⟨fun imp => ⟨fun h => wellknown_imp_eq h, fun h => eq_imp_wellknown h⟩,
    ?_, ?_⟩
  · intro rest hs
    cases hwk : isWellKnownProto (WellKnownTypesProtoPfx ++ "/" ++ rest) with
    | false => rfl
    | true =>
      exfalso
      have heq := wellknown_imp_eq hwk
      have hcancel : rest.data
          = (pathBase (WellKnownTypesProtoPfx ++ "/" ++ rest)).data := by
        have hd := congrArg String.data heq
        rw [String.data_append, String.data_append, String.data_append,
          String.data_append] at hd
        exact List.append_cancel_left hd
      have hmem : ∃ c ∈ (WellKnownTypesProtoPfx ++ "/" ++ rest).data,
          ¬ c = '/' := by
        refine ⟨'g', ?_, by decide⟩
        rw [String.data_append, String.data_append]
        exact List.mem_append.mpr (Or.inl (List.mem_append.mpr
          (Or.inl (by decide))))
      have := pathBase_no_slash hmem '/' (by rw [← hcancel]; exact hs)
      exact this rfl
  · intro ix from_ imp hsuf hwk
    constructor
    · intro l hok
      simp [resolveProto, hsuf, hwk, hok]
    · intro hnf
      simp [resolveProto, hsuf, hwk, hnf]

/-- Witness for the amended C1 at a concrete ambiguous index. -/
theorem C1_witness :
    2 ≤ ((⟨[⟨⟨"proto", "a/x.proto"⟩, "proto", ⟨"", "a", "x"⟩⟩,
          ⟨⟨"proto", "a/x.proto"⟩, "proto", ⟨"", "b", "y"⟩⟩]⟩ :
        RuleIndex).findRulesByImport ⟨"proto", "a/x.proto"⟩ "proto").length
    ∧ (Resolve
        ⟨[⟨⟨"proto", "a/x.proto"⟩, "proto", ⟨"", "a", "x"⟩⟩,
          ⟨⟨"proto", "a/x.proto"⟩, "proto", ⟨"", "b", "y"⟩⟩]⟩
        ⟨some ["sub/bar.proto", "a/x.proto"], none, []⟩ ⟨"", "c", "bin"⟩).1.deps
      = (Resolve
          ⟨[⟨⟨"proto", "a/x.proto"⟩, "proto", ⟨"", "a", "x"⟩⟩,
            ⟨⟨"proto", "a/x.proto"⟩, "proto", ⟨"", "b", "y"⟩⟩]⟩
          ⟨some ["sub/bar.proto"], none, []⟩ ⟨"", "c", "bin"⟩).1.deps :=
  ⟨by decide,
    (C1_ambiguity_no_edge _ _ _ ["sub/bar.proto"] [] "a/x.proto"
      (by decide) (by decide) (by decide) rfl).1⟩

/-- Witness for the amended C2 at a concrete self-providing index. -/
theorem C2_witness :
    (⟨[⟨⟨"proto", "me.proto"⟩, "proto", ⟨"", "", "me"⟩⟩]⟩ :
        RuleIndex).findRulesByImport ⟨"proto", "me.proto"⟩ "proto"
      = [⟨"", "", "me"⟩]
    ∧ resolveProto ⟨[⟨⟨"proto", "me.proto"⟩, "proto", ⟨"", "", "me"⟩⟩]⟩
        "me.proto" ⟨"", "", "me"⟩ = .error .skipImport :=
  ⟨by decide,
    (C2_self_import_skip _ _ ⟨some ["me.proto"], none, []⟩ [] [] "me.proto"
      (by decide) (by decide) (by decide) rfl).1⟩

/-- Witness for C3 at a concrete well-known import and the empty index. -/
theorem C3_witness :
    resolveProto ⟨[]⟩ "google/protobuf/any.proto" ⟨"", "x", "y"⟩
      = .ok ⟨WellKnownTypesProtoRepo, "", "any_proto"⟩ :=
  (C3_wellknown_fixed_label "google/protobuf/any.proto" ⟨"", "x", "y"⟩
    (by decide) (by decide) ⟨[]⟩).trans (by decide)

/-- Witness for C4 at a concrete extensionless import. -/
theorem C4_witness :
    resolveProto ⟨[]⟩ "foo" ⟨"", "", "bin"⟩ = .error (.nonProto "foo") :=
  (C4_nonproto_rejected ⟨[]⟩ ⟨"", "", "bin"⟩ ⟨some ["foo"], none, []⟩
    [] [] "foo" (by decide) rfl).1

/-- Witness for C5 at a concrete unindexed import. -/
theorem C5_witness :
    resolveProto ⟨[]⟩ "sub/bar.proto" ⟨"", "", "d"⟩
      = .ok ⟨"", "sub", "sub_proto"⟩ :=
  (C5_same_directory_fallback ⟨[]⟩ ⟨"", "", "d"⟩ "sub/bar.proto"
    (by decide) (by decide) (by decide)).trans (by decide)

/-- Witness for C6: repeated resolution is stable at a concrete input, and a
concrete run resolving to zero dependencies removes a stale attribute. -/
theorem C6_witness :
    ((Resolve ⟨[]⟩ ((Resolve ⟨[]⟩
          ⟨some ["sub/bar.proto"], some ["stale"], []⟩ ⟨"", "", "b"⟩).1)
        ⟨"", "", "b"⟩).1.deps
      = (Resolve ⟨[]⟩ ⟨some ["sub/bar.proto"], some ["stale"], []⟩
          ⟨"", "", "b"⟩).1.deps)
    ∧ (Resolve ⟨[⟨⟨"proto", "me.proto"⟩, "proto", ⟨"", "", "me"⟩⟩]⟩
        ⟨some ["me.proto"], some ["stale"], []⟩ ⟨"", "", "me"⟩).1.deps
      = none :=
  ⟨(C6_idempotent_overwrite ⟨[]⟩ ⟨"", "", "b"⟩
      ⟨some ["sub/bar.proto"], some ["stale"], []⟩ ["sub/bar.proto"] rfl).1,
    (C6_idempotent_overwrite _ ⟨"", "", "me"⟩
      ⟨some ["me.proto"], some ["stale"], []⟩ ["me.proto"] rfl).2 (by decide)⟩

/-- Witness for C7: the three relativized forms appear on a concrete rule
that imports from its own package, a sibling package, and another
repository. -/
theorem C7_witness :
    (Resolve ⟨[⟨⟨"proto", "a/p.proto"⟩, "proto", ⟨"", "a", "x"⟩⟩,
        ⟨⟨"proto", "b/q.proto"⟩, "proto", ⟨"", "b", "y"⟩⟩,
        ⟨⟨"proto", "c/r.proto"⟩, "proto", ⟨"r", "c", "z"⟩⟩]⟩
      ⟨some ["a/p.proto", "b/q.proto", "c/r.proto"], none, []⟩
      ⟨"", "a", "bin"⟩).1.deps
    = some [":x", "//b:y", "@r//c:z"] :=
  ((C7_relativized_deps _ ⟨"", "a", "bin"⟩
    ⟨some ["a/p.proto", "b/q.proto", "c/r.proto"], none, []⟩
    ["a/p.proto", "b/q.proto", "c/r.proto"] rfl).1).trans (by decide)

/-- Witness for C8: the general vendored-over-non-vendored rule applied to a
root-level vendor directory. -/
theorem C8_witness :
    selectVendored "sub" [⟨"", "", "root"⟩, ⟨"", "vendor/foo", "vendored"⟩]
      = .chosen ⟨"", "vendor/foo", "vendored"⟩ :=
  C8_vendor_nearest_wins.2 ⟨"", "", "root"⟩ ⟨"", "vendor/foo", "vendored"⟩
    "sub" "" (by decide) (by decide) (by decide)

/-- Witness for C9 at a concrete rule without the raw-imports attribute. -/
theorem C9_witness :
    Resolve ⟨[]⟩ ⟨none, some ["keep"], []⟩ ⟨"", "", "b"⟩
      = (⟨none, some ["keep"], []⟩, []) :=
  (C9_absent_imports_frame ⟨[]⟩ ⟨"", "", "b"⟩ ⟨none, some ["keep"], []⟩
    rfl).1

/-- Witness for C10: a deeper subdirectory beneath the well-known path is
not recognized as well-known. -/
theorem C10_witness :
    isWellKnownProto (WellKnownTypesProtoPfx ++ "/" ++ "sub/x.proto")
      = false :=
  C10_wellknown_direct_only.2.1 "sub/x.proto" (by decide)

end Gazelle
